import Mathlib

/-!
Verification of the tova-lang native runtime against its specification.

The Lean definitions below are a shallow embedding of the Rust sources:

* `src/tova_runtime/src/channels.rs`  — the channel registry (create, send,
  receive, receive_blocking, close, destroy) over a registry state;
* `src/tova_runtime/src/host_imports.rs` — the `tova.chan_send` guest import;
* `src/tova_runtime/src/executor.rs`  — `exec_wasm_sync` and
  `exec_many_shared`, with the wasmtime engine abstracted as a semantic
  oracle (`compile`), and with an explicit count of the stores the loop
  in `exec_many_shared` creates;
* `src/tova_runtime/src/lib.rs`       — `concurrent_wasm`,
  `concurrent_wasm_shared` and the empty-input guard of
  `concurrent_wasm_first`.

Concurrency is modelled sequentially: each registry operation runs atomically
(the Rust code holds the registry mutex across the map lookup and performs the
endpoint operation right after); an operation that would block on a crossbeam
endpoint (a send into a full or rendezvous buffer, a blocking receive from an
open empty buffer) is modelled as `none` of an `Option`-valued step, since it
does not complete in a single-caller execution.
-/

set_option autoImplicit false

namespace Tova

/-! ## Channel registry (channels.rs)

`ChannelEntry` models the Rust struct of the same name.  The crossbeam
`Sender`/`Receiver` pair of a bounded channel is represented by the queue
contents (`buffer`, front = oldest) together with its `capacity`; the
`closed` flag is as in the source.  A closed entry's dead sender needs no
representation: `send` tests `closed` before ever touching the sender. -/

structure ChannelEntry where
  buffer : List Int
  capacity : Nat
  closed : Bool
deriving DecidableEq, Repr

/-- The registry state: the `CHANNELS` map (association list keyed by the
64-bit id, modelled as `Nat`) together with the `NEXT_ID` counter. -/
structure Registry where
  channels : List (Nat × ChannelEntry)
  nextId : Nat
deriving DecidableEq, Repr

/-- The registry at process start: empty map, `NEXT_ID = 0`. -/
def Registry.start : Registry := ⟨[], 0⟩

/-- `CHANNELS.get(&id)`. -/
def lookupChan (id : Nat) (r : Registry) : Option ChannelEntry :=
  r.channels.lookup id

/-- Overwrite the entry stored under an existing key (the effect of mutating
or re-inserting the entry for a key the `HashMap` already holds). -/
def setChan (id : Nat) (e : ChannelEntry) (r : Registry) : Registry :=
  { r with channels := r.channels.map (fun p => if p.1 = id then (id, e) else p) }

/-- `CHANNELS.remove(&id)`. -/
def removeChan (id : Nat) (r : Registry) : Registry :=
  { r with channels := r.channels.filter (fun p => p.1 != id) }

/-- `create(capacity)` (channels.rs lines 17-27): allocate the next id,
insert a fresh open entry (`bounded(cap)` starts empty), bump `NEXT_ID`.
The counter is a `u64`, so `*id_lock += 1` is a wrapping add modulo 2^64
(release-build overflow semantics).  `HashMap::insert` replaces any entry
under the same key, hence the `removeChan` before the cons. -/
def create (capacity : Nat) (r : Registry) : Nat × Registry :=
  let cap := if capacity = 0 then 0 else capacity
  let id := r.nextId
  (id, { channels := (id, ⟨[], cap, false⟩) :: (removeChan id r).channels,
         nextId := (r.nextId + 1) % 2 ^ 64 })

/-- `send(id, value)` (channels.rs lines 29-39).  Absent id or closed entry:
`false`, registry unchanged.  Open entry with buffer room: enqueue, `true`.
Open entry with a full buffer (including capacity 0, the rendezvous case):
the crossbeam `send` blocks, modelled as `none`. -/
def send (id : Nat) (v : Int) (r : Registry) : Option (Bool × Registry) :=
  match lookupChan id r with
  | none => some (false, r)
  | some e =>
    if e.closed then some (false, r)
    else if e.buffer.length < e.capacity then
      some (true, setChan id { e with buffer := e.buffer ++ [v] } r)
    else none

/-- `receive(id)` (channels.rs lines 41-61), non-blocking, hence total.
A nonempty buffer yields its front (no entry removal on the `Ok` path,
even when this receive drains the buffer).  On an empty buffer `try_recv`
fails, and the entry is removed exactly when the `closed` flag was set. -/
def receive (id : Nat) (r : Registry) : Option Int × Registry :=
  match lookupChan id r with
  | none => (none, r)
  | some e =>
    match e.buffer with
    | v :: rest => (some v, setChan id { e with buffer := rest } r)
    | [] => if e.closed then (none, removeChan id r) else (none, r)

/-- `receive_blocking(id)` (channels.rs lines 63-83).  As `receive`, except
that on an open empty buffer `recv()` blocks (`none`); on a closed empty
buffer every sender is gone, so `recv()` fails at once and the entry is
removed. -/
def receive_blocking (id : Nat) (r : Registry) : Option (Option Int × Registry) :=
  match lookupChan id r with
  | none => some (none, r)
  | some e =>
    match e.buffer with
    | v :: rest => some (some v, setChan id { e with buffer := rest } r)
    | [] => if e.closed then some (none, removeChan id r) else none

/-- `close(id)` (channels.rs lines 85-101): remove the entry; if its buffer
was already empty, stop there; otherwise re-insert it with the same buffer,
the `closed` flag set, and a dead sender (unrepresented, see above). -/
def close (id : Nat) (r : Registry) : Registry :=
  match lookupChan id r with
  | none => r
  | some e =>
    if e.buffer.isEmpty then removeChan id r
    else setChan id { e with closed := true } r

/-- `destroy(id)` (channels.rs lines 103-106). -/
def destroy (id : Nat) (r : Registry) : Registry :=
  removeChan id r

/-! ## Guest-facing host import (host_imports.rs)

`chan_send` narrows its `i32` id as `ch_id as u64` (sign-extend, then
reinterpret) and maps the registry `send` outcome to a status code: success
gives `0`, every failure (`Ok(false)` and the closed-channel error arm alike)
gives `-1`. -/

/-- Rust `(x : i32) as u64`: sign-extend to 64 bits, reinterpret unsigned.
For `x` in `i32` range this is exactly `x mod 2^64`. -/
def castI32ToU64 (x : Int) : Nat := (x % (2 ^ 64 : Int)).toNat

/-- `tova.chan_send` (host_imports.rs lines 8-17).  `none` when the
underlying registry send blocks (the guest call does not return). -/
def chan_send (chId : Int) (value : Int) (r : Registry) : Option (Int × Registry) :=
  match send (castI32ToU64 chId) value r with
  | some (b, r2) => some (if b then 0 else -1, r2)
  | none => none

/-! ## Registry operation traces

A trace of host-visible registry operations, used to state process-lifetime
invariants about the ids `create` hands out.  A blocked operation has not
completed, so it contributes no state change to the trace. -/

inductive Op where
  | create (capacity : Nat)
  | send (id : Nat) (v : Int)
  | receive (id : Nat)
  | receiveBlocking (id : Nat)
  | close (id : Nat)
  | destroy (id : Nat)

/-- The registry after one operation. -/
def Op.step : Op → Registry → Registry
  | .create c, r => (Tova.create c r).2
  | .send id v, r =>
    match Tova.send id v r with
    | some (_, r2) => r2
    | none => r
  | .receive id, r => (Tova.receive id r).2
  | .receiveBlocking id, r =>
    match Tova.receive_blocking id r with
    | some (_, r2) => r2
    | none => r
  | .close id, r => Tova.close id r
  | .destroy id, r => Tova.destroy id r

/-- The ids returned by the `create` calls of a trace, in call order. -/
def createdIds : List Op → Registry → List Nat
  | [], _ => []
  | .create c :: ops, r => (Tova.create c r).1 :: createdIds ops (Tova.create c r).2
  | op :: ops, r => createdIds ops (op.step r)

/-- How many `create` calls a trace contains. -/
def numCreates : List Op → Nat
  | [] => 0
  | .create _ :: ops => numCreates ops + 1
  | _ :: ops => numCreates ops

/-- The registry after a whole trace. -/
def runOps (ops : List Op) (r : Registry) : Registry :=
  ops.foldl (fun r op => op.step r) r

/-! ## Registry lemmas -/

theorem send_eq_of_absent {id : Nat} {r : Registry} (v : Int)
    (h : lookupChan id r = none) : send id v r = some (false, r) := by
  unfold send
  rw [h]

theorem send_eq_of_lookup {id : Nat} {r : Registry} {e : ChannelEntry} (v : Int)
    (h : lookupChan id r = some e) :
    send id v r =
      if e.closed then some (false, r)
      else if e.buffer.length < e.capacity then
        some (true, setChan id { e with buffer := e.buffer ++ [v] } r)
      else none := by
  unfold send
  rw [h]

theorem receive_eq_of_lookup {id : Nat} {r : Registry} {e : ChannelEntry}
    (h : lookupChan id r = some e) :
    receive id r =
      match e.buffer with
      | v :: rest => (some v, setChan id { e with buffer := rest } r)
      | [] => if e.closed then (none, removeChan id r) else (none, r) := by
  unfold receive
  rw [h]

theorem receive_blocking_eq_of_absent {id : Nat} {r : Registry}
    (h : lookupChan id r = none) : receive_blocking id r = some (none, r) := by
  unfold receive_blocking
  rw [h]

theorem receive_blocking_eq_of_lookup {id : Nat} {r : Registry} {e : ChannelEntry}
    (h : lookupChan id r = some e) :
    receive_blocking id r =
      match e.buffer with
      | v :: rest => some (some v, setChan id { e with buffer := rest } r)
      | [] => if e.closed then some (none, removeChan id r) else none := by
  unfold receive_blocking
  rw [h]

theorem close_eq_of_lookup {id : Nat} {r : Registry} {e : ChannelEntry}
    (h : lookupChan id r = some e) :
    close id r =
      if e.buffer.isEmpty then removeChan id r
      else setChan id { e with closed := true } r := by
  unfold close
  rw [h]


theorem nextId_setChan (id : Nat) (e : ChannelEntry) (r : Registry) :
    (setChan id e r).nextId = r.nextId := rfl

theorem nextId_removeChan (id : Nat) (r : Registry) :
    (removeChan id r).nextId = r.nextId := rfl

theorem send_nextId {id : Nat} {v : Int} {r : Registry} {b : Bool} {r2 : Registry}
    (h : send id v r = some (b, r2)) : r2.nextId = r.nextId := by
  unfold send at h
  split at h
  · simp_all
  · split at h
    · simp_all
    · split at h
      · simp only [Option.some.injEq, Prod.mk.injEq] at h
        rw [← h.2]
        rfl
      · exact absurd h (by simp)

theorem receive_nextId (id : Nat) (r : Registry) :
    (receive id r).2.nextId = r.nextId := by
  unfold receive
  split
  · rfl
  · split
    · rfl
    · split <;> rfl

theorem receive_blocking_nextId {id : Nat} {r : Registry} {o : Option Int} {r2 : Registry}
    (h : receive_blocking id r = some (o, r2)) : r2.nextId = r.nextId := by
  unfold receive_blocking at h
  split at h
  · simp_all
  · split at h
    · simp only [Option.some.injEq, Prod.mk.injEq] at h
      rw [← h.2]
      rfl
    · split at h
      · simp only [Option.some.injEq, Prod.mk.injEq] at h
        rw [← h.2]
        rfl
      · exact absurd h (by simp)

theorem close_nextId (id : Nat) (r : Registry) :
    (close id r).nextId = r.nextId := by
  unfold close
  split
  · rfl
  · split <;> rfl

theorem step_nextId (op : Op) (r : Registry) (h : ∀ c, op ≠ .create c) :
    (op.step r).nextId = r.nextId := by
  cases op with
  | create c => exact absurd rfl (h c)
  | send id v =>
    simp only [Op.step]
    split
    · next b r2 heq => exact send_nextId heq
    · rfl
  | receive id => exact receive_nextId id r
  | receiveBlocking id =>
    simp only [Op.step]
    split
    · next o r2 heq => exact receive_blocking_nextId heq
    · rfl
  | close id => exact close_nextId id r
  | destroy id => rfl

/-- The ids a trace's `create` calls return, as long as the trace performs at
most as many creates as the wrapping 64-bit counter has room for, are exactly
the consecutive naturals starting at the initial `NEXT_ID`: only `create`
touches the counter, and in this range the wrapping increment is plain
increment. -/
theorem createdIds_eq_of_le (ops : List Op) (r : Registry)
    (h : r.nextId + numCreates ops ≤ 2 ^ 64) :
    createdIds ops r = List.range' r.nextId (numCreates ops) := by
  induction ops generalizing r with
  | nil => rfl
  | cons op ops ih =>
    cases op with
    | create c =>
      have hstep : ((Tova.create c r).2).nextId = (r.nextId + 1) % 2 ^ 64 := rfl
      simp only [numCreates] at h
      simp only [createdIds, numCreates, List.range'_succ]
      have h1 : (Tova.create c r).1 = r.nextId := rfl
      rw [h1]
      by_cases hlt : r.nextId + 1 < 2 ^ 64
      · have hmod : ((Tova.create c r).2).nextId = r.nextId + 1 := by
          rw [hstep]
          exact Nat.mod_eq_of_lt hlt
        rw [ih ((Tova.create c r).2) (by rw [hmod]; omega), hmod]
      · have hz : numCreates ops = 0 := by omega
        rw [ih ((Tova.create c r).2)
          (by rw [hz, hstep]; have := Nat.mod_lt (r.nextId + 1) (show 0 < 2 ^ 64 by positivity); omega), hz]
        rfl
    | send id v =>
      simp only [numCreates] at h
      simp only [createdIds, numCreates]
      have hp := step_nextId (Op.send id v) r (by intro c h2; cases h2)
      rw [ih _ (by rw [hp]; exact h), hp]
    | receive id =>
      simp only [numCreates] at h
      simp only [createdIds, numCreates]
      have hp := step_nextId (Op.receive id) r (by intro c h2; cases h2)
      rw [ih _ (by rw [hp]; exact h), hp]
    | receiveBlocking id =>
      simp only [numCreates] at h
      simp only [createdIds, numCreates]
      have hp := step_nextId (Op.receiveBlocking id) r (by intro c h2; cases h2)
      rw [ih _ (by rw [hp]; exact h), hp]
    | close id =>
      simp only [numCreates] at h
      simp only [createdIds, numCreates]
      have hp := step_nextId (Op.close id) r (by intro c h2; cases h2)
      rw [ih _ (by rw [hp]; exact h), hp]
    | destroy id =>
      simp only [numCreates] at h
      simp only [createdIds, numCreates]
      have hp := step_nextId (Op.destroy id) r (by intro c h2; cases h2)
      rw [ih _ (by rw [hp]; exact h), hp]

theorem createdIds_append (ops1 ops2 : List Op) (r : Registry) :
    createdIds (ops1 ++ ops2) r
      = createdIds ops1 r ++ createdIds ops2 (runOps ops1 r) := by
  induction ops1 generalizing r with
  | nil => rfl
  | cons op ops ih =>
    cases op with
    | create c =>
      simp only [List.cons_append, createdIds, List.append_eq]
      rw [ih]
      rfl
    | send id v =>
      simp only [List.cons_append, createdIds, List.append_eq]
      rw [ih]
      rfl
    | receive id =>
      simp only [List.cons_append, createdIds, List.append_eq]
      rw [ih]
      rfl
    | receiveBlocking id =>
      simp only [List.cons_append, createdIds, List.append_eq]
      rw [ih]
      rfl
    | close id =>
      simp only [List.cons_append, createdIds, List.append_eq]
      rw [ih]
      rfl
    | destroy id =>
      simp only [List.cons_append, createdIds, List.append_eq]
      rw [ih]
      rfl

/-- The counter after a trace: it advances by one per `create`, modulo 2^64. -/
theorem runOps_nextId (ops : List Op) (r : Registry) (h : r.nextId < 2 ^ 64) :
    (runOps ops r).nextId = (r.nextId + numCreates ops) % 2 ^ 64 := by
  induction ops generalizing r with
  | nil =>
    simp only [runOps, List.foldl_nil, numCreates, Nat.add_zero]
    exact (Nat.mod_eq_of_lt h).symm
  | cons op ops ih =>
    cases op with
    | create c =>
      have hstep : (Op.step (.create c) r).nextId = (r.nextId + 1) % 2 ^ 64 := rfl
      show (runOps ops (Op.step (.create c) r)).nextId = _
      rw [ih _ (by rw [hstep]; exact Nat.mod_lt _ (by positivity)), hstep]
      simp only [numCreates]
      rw [Nat.mod_add_mod]
      congr 1
      omega
    | send id v =>
      have hp := step_nextId (Op.send id v) r (by intro c h2; cases h2)
      show (runOps ops (Op.step (.send id v) r)).nextId = _
      rw [ih _ (by rw [hp]; exact h), hp]
      rfl
    | receive id =>
      have hp := step_nextId (Op.receive id) r (by intro c h2; cases h2)
      show (runOps ops (Op.step (.receive id) r)).nextId = _
      rw [ih _ (by rw [hp]; exact h), hp]
      rfl
    | receiveBlocking id =>
      have hp := step_nextId (Op.receiveBlocking id) r (by intro c h2; cases h2)
      show (runOps ops (Op.step (.receiveBlocking id) r)).nextId = _
      rw [ih _ (by rw [hp]; exact h), hp]
      rfl
    | close id =>
      have hp := step_nextId (Op.close id) r (by intro c h2; cases h2)
      show (runOps ops (Op.step (.close id) r)).nextId = _
      rw [ih _ (by rw [hp]; exact h), hp]
      rfl
    | destroy id =>
      have hp := step_nextId (Op.destroy id) r (by intro c h2; cases h2)
      show (runOps ops (Op.step (.destroy id) r)).nextId = _
      rw [ih _ (by rw [hp]; exact h), hp]
      rfl

theorem numCreates_replicate_create (k : Nat) (c : Nat) :
    numCreates (List.replicate k (Op.create c)) = k := by
  induction k with
  | zero => rfl
  | succ k ih => simp [List.replicate_succ, numCreates, ih]

theorem le_of_mem_range' {s n m : Nat} (h : m ∈ List.range' s n) : s ≤ m := by
  induction n generalizing s with
  | zero => cases h
  | succ n ih =>
    rw [List.range'_succ] at h
    rcases List.mem_cons.mp h with h | h
    · omega
    · have := ih h; omega

theorem pairwise_lt_range'_self (s n : Nat) :
    List.Pairwise (· < ·) (List.range' s n) := by
  induction n generalizing s with
  | zero => exact List.Pairwise.nil
  | succ n ih =>
    rw [List.range'_succ]
    exact List.pairwise_cons.mpr ⟨fun m hm => lt_of_lt_of_le (by omega) (le_of_mem_range' hm), ih _⟩

theorem lookup_filter_ne (id : Nat) (l : List (Nat × ChannelEntry)) :
    (l.filter (fun p => p.1 != id)).lookup id = none := by
  rw [List.lookup_eq_none_iff]
  intro p hp
  have h1 : (p.1 != id) = true := (List.mem_filter.mp hp).2
  have h2 : p.1 ≠ id := by simpa using h1
  simpa using Ne.symm h2

theorem lookup_removeChan_self (id : Nat) (r : Registry) :
    lookupChan id (removeChan id r) = none :=
  lookup_filter_ne id r.channels

theorem removeChan_absent {id : Nat} {r : Registry} (h : lookupChan id r = none) :
    removeChan id r = r := by
  unfold lookupChan at h
  rw [List.lookup_eq_none_iff] at h
  unfold removeChan
  have hf : r.channels.filter (fun p => p.1 != id) = r.channels := by
    rw [List.filter_eq_self]
    intro p hp
    have h2 : id ≠ p.1 := by simpa using h p hp
    simpa using Ne.symm h2
  rw [hf]

theorem lookup_map_set (id : Nat) (e : ChannelEntry) (l : List (Nat × ChannelEntry)) :
    (l.map (fun p => if p.1 = id then (id, e) else p)).lookup id
      = (l.lookup id).map (fun _ => e) := by
  induction l with
  | nil => rfl
  | cons p l ih =>
    obtain ⟨pk, pv⟩ := p
    by_cases h : pk = id
    · subst h
      simp
    · have hb : (id == pk) = false := by simp [Ne.symm h]
      simp only [List.map_cons, if_neg h, List.lookup_cons, hb]
      exact ih

theorem lookup_setChan_self (id : Nat) (e : ChannelEntry) (r : Registry) :
    lookupChan id (setChan id e r) = (lookupChan id r).map (fun _ => e) :=
  lookup_map_set id e r.channels

/-! ## Send/receive sequences -/

/-- Thread a sequence of `send` calls, requiring every one to complete and
return `true`. -/
def sendAll (id : Nat) (vs : List Int) (r : Registry) : Option Registry :=
  match vs with
  | [] => some r
  | v :: rest =>
    match send id v r with
    | some (true, r2) => sendAll id rest r2
    | _ => none

/-- Thread `n` completed `receive_blocking` calls, collecting their results. -/
def recvN (id : Nat) : Nat → Registry → Option (List (Option Int) × Registry)
  | 0, r => some ([], r)
  | n + 1, r =>
    match receive_blocking id r with
    | some (o, r2) =>
      match recvN id n r2 with
      | some (os, r3) => some (o :: os, r3)
      | none => none
    | none => none

theorem recvN_zero (id : Nat) (r : Registry) : recvN id 0 r = some ([], r) := rfl

theorem recvN_step (id : Nat) (n : Nat) {r r2 r3 : Registry} {o : Option Int}
    {os : List (Option Int)}
    (h1 : receive_blocking id r = some (o, r2)) (h2 : recvN id n r2 = some (os, r3)) :
    recvN id (n + 1) r = some (o :: os, r3) := by
  unfold recvN
  rw [h1]
  show (match recvN id n r2 with
        | some (os, r3) => some (o :: os, r3)
        | none => none) = some (o :: os, r3)
  rw [h2]

/-- A channel on which every completed send fails: its id is absent from the
registry, or its entry is marked closed. -/
def deadChan (id : Nat) (r : Registry) : Prop :=
  lookupChan id r = none ∨ ∃ e, lookupChan id r = some e ∧ e.closed = true

theorem send_deadChan {id : Nat} {r : Registry} (h : deadChan id r) (v : Int) :
    send id v r = some (false, r) := by
  rcases h with h | ⟨e, h, hcl⟩
  · exact send_eq_of_absent v h
  · rw [send_eq_of_lookup v h]
    simp [hcl]

theorem create_cap (capacity : Nat) :
    (if capacity = 0 then 0 else capacity) = capacity := by
  split <;> omega

theorem lookup_create_self (capacity : Nat) (r : Registry) :
    lookupChan (create capacity r).1 (create capacity r).2
      = some ⟨[], capacity, false⟩ := by
  unfold create lookupChan
  simp [create_cap]

theorem sendAll_spec {id : Nat} (vs : List Int) {r : Registry} {e : ChannelEntry}
    (h : lookupChan id r = some e) (hcl : e.closed = false)
    (hlen : e.buffer.length + vs.length ≤ e.capacity) :
    ∃ r2, sendAll id vs r = some r2 ∧
      lookupChan id r2 = some { e with buffer := e.buffer ++ vs } := by
  induction vs generalizing r e with
  | nil => exact ⟨r, rfl, by simpa using h⟩
  | cons v rest ih =>
    have hroom : e.buffer.length < e.capacity := by
      simp only [List.length_cons] at hlen
      omega
    have hsend : send id v r = some (true, setChan id { e with buffer := e.buffer ++ [v] } r) := by
      rw [send_eq_of_lookup v h]
      simp [hcl, hroom]
    have h2 : lookupChan id (setChan id { e with buffer := e.buffer ++ [v] } r)
        = some { e with buffer := e.buffer ++ [v] } := by
      rw [lookup_setChan_self, h]
      rfl
    have hlen2 : ({ e with buffer := e.buffer ++ [v] } : ChannelEntry).buffer.length + rest.length
        ≤ ({ e with buffer := e.buffer ++ [v] } : ChannelEntry).capacity := by
      simp only [List.length_append, List.length_singleton, List.length_cons,
        List.length_nil] at hlen ⊢
      omega
    obtain ⟨r2, hs, hl⟩ := ih h2 hcl hlen2
    refine ⟨r2, ?_, ?_⟩
    · unfold sendAll
      rw [hsend]
      exact hs
    · simpa [List.append_assoc] using hl

theorem recvN_drain {id : Nat} (b : List Int) {cap : Nat} {r : Registry}
    (h : lookupChan id r = some ⟨b, cap, true⟩) :
    ∃ r3, recvN id (b.length + 1) r = some (b.map some ++ [none], r3) ∧
      lookupChan id r3 = none ∧
      ∀ i, i ≤ b.length + 1 →
        ∃ os ri, recvN id i r = some (os, ri) ∧ deadChan id ri := by
  induction b generalizing r with
  | nil =>
    have hrb : receive_blocking id r = some (none, removeChan id r) := by
      rw [receive_blocking_eq_of_lookup h]
      rfl
    refine ⟨removeChan id r, ?_, lookup_removeChan_self id r, ?_⟩
    · simpa using recvN_step id 0 hrb (recvN_zero id _)
    · intro i hi
      match i, hi with
      | 0, _ => exact ⟨[], r, rfl, Or.inr ⟨_, h, rfl⟩⟩
      | 1, _ =>
        exact ⟨[none], removeChan id r,
          recvN_step id 0 hrb (recvN_zero id _), Or.inl (lookup_removeChan_self id r)⟩
  | cons w rest ih =>
    have hrb : receive_blocking id r
        = some (some w, setChan id ⟨rest, cap, true⟩ r) := by
      rw [receive_blocking_eq_of_lookup h]
    have h2 : lookupChan id (setChan id ⟨rest, cap, true⟩ r)
        = some ⟨rest, cap, true⟩ := by
      rw [lookup_setChan_self, h]
      rfl
    obtain ⟨r3, hrec, hnone, hdead⟩ := ih h2
    refine ⟨r3, ?_, hnone, ?_⟩
    · simpa using recvN_step id (rest.length + 1) hrb hrec
    · intro i hi
      cases i with
      | zero => exact ⟨[], r, rfl, Or.inr ⟨_, h, rfl⟩⟩
      | succ j =>
        obtain ⟨os, ri, hj, hd⟩ := hdead j (by simp only [List.length_cons] at hi; omega)
        exact ⟨some w :: os, ri, recvN_step id j hrb hj, hd⟩

/-! ## Claim theorems: channel registry -/

/-- C1: for a channel fresh from `create` with capacity at least k, k sends of
v₁…vₖ all succeed; after `close`, k blocking receives return `some v₁ … some vₖ`
in FIFO order and the (k+1)-th returns `none`; moreover after `close`, at every
point of the receive sequence (before, between and after the receives), any
send on the channel completes with `false` and leaves the registry unchanged. -/
theorem c1_channel_fifo (r0 : Registry) (capacity : Nat) (vs : List Int)
    (hlen : vs.length ≤ capacity) :
    ∃ r2 r3,
      sendAll (create capacity r0).1 vs (create capacity r0).2 = some r2 ∧
      recvN (create capacity r0).1 (vs.length + 1) (close (create capacity r0).1 r2)
        = some (vs.map some ++ [none], r3) ∧
      (∀ i, i ≤ vs.length + 1 →
        ∃ os ri,
          recvN (create capacity r0).1 i (close (create capacity r0).1 r2) = some (os, ri) ∧
          ∀ v, send (create capacity r0).1 v ri = some (false, ri)) := by
  obtain ⟨r2, hsend, hl2⟩ :=
    sendAll_spec vs (lookup_create_self capacity r0) rfl (by simpa using hlen)
  simp only [List.nil_append] at hl2
  refine ⟨r2, ?_⟩
  cases vs with
  | nil =>
    have hclose : close (create capacity r0).1 r2 = removeChan (create capacity r0).1 r2 := by
      rw [close_eq_of_lookup hl2]
      rfl
    have habs : lookupChan (create capacity r0).1 (close (create capacity r0).1 r2) = none := by
      rw [hclose]
      exact lookup_removeChan_self _ _
    have hrb : receive_blocking (create capacity r0).1 (close (create capacity r0).1 r2)
        = some (none, close (create capacity r0).1 r2) :=
      receive_blocking_eq_of_absent habs
    refine ⟨close (create capacity r0).1 r2, hsend, ?_, ?_⟩
    · simpa using recvN_step _ 0 hrb (recvN_zero _ _)
    · intro i hi
      match i, hi with
      | 0, _ =>
        exact ⟨[], close (create capacity r0).1 r2, rfl,
          send_deadChan (Or.inl habs)⟩
      | 1, _ =>
        exact ⟨[none], close (create capacity r0).1 r2,
          recvN_step _ 0 hrb (recvN_zero _ _), send_deadChan (Or.inl habs)⟩
  | cons w rest =>
    have hclose2 : close (create capacity r0).1 r2
        = setChan (create capacity r0).1 ⟨w :: rest, capacity, true⟩ r2 := by
      rw [close_eq_of_lookup hl2]
      rfl
    have hclosed : lookupChan (create capacity r0).1 (close (create capacity r0).1 r2)
        = some ⟨w :: rest, capacity, true⟩ := by
      rw [hclose2, lookup_setChan_self, hl2]
      rfl
    obtain ⟨r3, hrec, _, hdead⟩ := recvN_drain (w :: rest) hclosed
    refine ⟨r3, hsend, hrec, ?_⟩
    intro i hi
    obtain ⟨os, ri, hj, hd⟩ := hdead i hi
    exact ⟨os, ri, hj, send_deadChan hd⟩

theorem c1_channel_fifo_witness :
    ([7, 8] : List Int).length ≤ 2 ∧
    (∃ r2 r3,
      sendAll (create 2 Registry.start).1 [7, 8] (create 2 Registry.start).2 = some r2 ∧
      recvN (create 2 Registry.start).1 (([7, 8] : List Int).length + 1)
          (close (create 2 Registry.start).1 r2)
        = some (([7, 8] : List Int).map some ++ [none], r3) ∧
      (∀ i, i ≤ ([7, 8] : List Int).length + 1 →
        ∃ os ri,
          recvN (create 2 Registry.start).1 i (close (create 2 Registry.start).1 r2)
            = some (os, ri) ∧
          ∀ v, send (create 2 Registry.start).1 v ri = some (false, ri))) :=
  ⟨by decide, c1_channel_fifo Registry.start 2 [7, 8] (by decide)⟩

/-! ## Claim theorems (continued) -/

/-- C7 counterexample: the `NEXT_ID` counter is a wrapping `u64`, so a trace
of 2^64 + 1 `create` calls from process start hands out `0, 1, …, 2^64 - 1`
and then id `0` a second time: the created-id sequence is neither strictly
increasing nor duplicate-free, refuting the claim that no id is ever
assigned twice across any sequence of creates. -/
theorem c7_counterexample :
    createdIds (List.replicate (2 ^ 64 + 1) (Op.create 0)) Registry.start
      = List.range' 0 (2 ^ 64) ++ [0] ∧
    ¬ List.Pairwise (· < ·)
        (createdIds (List.replicate (2 ^ 64 + 1) (Op.create 0)) Registry.start) ∧
    ¬ (createdIds (List.replicate (2 ^ 64 + 1) (Op.create 0)) Registry.start).Nodup := by
  have hsplit : List.replicate (2 ^ 64 + 1) (Op.create 0)
      = List.replicate (2 ^ 64) (Op.create 0) ++ [Op.create 0] :=
    List.replicate_succ' (2 ^ 64) (Op.create 0)
  have h1 : createdIds (List.replicate (2 ^ 64) (Op.create 0)) Registry.start
      = List.range' 0 (2 ^ 64) := by
    have hh := createdIds_eq_of_le (List.replicate (2 ^ 64) (Op.create 0)) Registry.start
      (by rw [numCreates_replicate_create]; exact Nat.le_refl _)
    rw [numCreates_replicate_create] at hh
    exact hh
  have hrun : (runOps (List.replicate (2 ^ 64) (Op.create 0)) Registry.start).nextId = 0 := by
    rw [runOps_nextId _ _ (by decide), numCreates_replicate_create]
    show ((0 : Nat) + 2 ^ 64) % 2 ^ 64 = 0
    simp
  have hlast : ∀ r : Registry, createdIds [Op.create 0] r = [r.nextId] := fun _ => rfl
  have hfull : createdIds (List.replicate (2 ^ 64 + 1) (Op.create 0)) Registry.start
      = List.range' 0 (2 ^ 64) ++ [0] := by
    rw [hsplit, createdIds_append, h1, hlast _, hrun]
  have h0mem : (0 : Nat) ∈ List.range' 0 (2 ^ 64) :=
    List.mem_range'.mpr ⟨0, by positivity, by simp⟩
  refine ⟨hfull, ?_, ?_⟩
  · rw [hfull]
    intro hp
    have := (List.pairwise_append.mp hp).2.2 0 h0mem 0 (List.mem_singleton_self 0)
    exact absurd this (lt_irrefl 0)
  · rw [hfull]
    intro hn
    exact (List.nodup_append.mp hn).2.2 h0mem (List.mem_singleton_self 0)

/-- C7 (amended): across any sequence of registry operations within one
process that performs at most 2^64 `create` calls (the wrapping range of the
u64 counter), the ids `create` returns are exactly `0, 1, 2, …` in call
order: strictly monotonically increasing starting from 0, and no id is
assigned twice, not even after `close` or `destroy`.  Beyond 2^64 creates
the counter wraps and ids repeat. -/
theorem c7_create_ids_monotone (ops : List Op) (h : numCreates ops ≤ 2 ^ 64) :
    createdIds ops Registry.start = List.range (numCreates ops) ∧
    List.Pairwise (· < ·) (createdIds ops Registry.start) ∧
    (createdIds ops Registry.start).Nodup := by
  have heq := createdIds_eq_of_le ops Registry.start
    (by show (0 : Nat) + numCreates ops ≤ 2 ^ 64; simpa using h)
  refine ⟨?_, ?_, ?_⟩
  · rw [heq, List.range_eq_range']
    rfl
  · rw [heq]; exact pairwise_lt_range'_self _ _
  · rw [heq]
    exact List.Pairwise.imp (fun hlt => Nat.ne_of_lt hlt) (pairwise_lt_range'_self _ _)

theorem c7_create_ids_monotone_witness :
    numCreates [Op.create 2, Op.send 0 7, Op.create 0] ≤ 2 ^ 64 ∧
    (createdIds [Op.create 2, Op.send 0 7, Op.create 0] Registry.start
        = List.range (numCreates [Op.create 2, Op.send 0 7, Op.create 0]) ∧
     List.Pairwise (· < ·)
        (createdIds [Op.create 2, Op.send 0 7, Op.create 0] Registry.start) ∧
     (createdIds [Op.create 2, Op.send 0 7, Op.create 0] Registry.start).Nodup) :=
  ⟨by decide, c7_create_ids_monotone [Op.create 2, Op.send 0 7, Op.create 0] (by decide)⟩

/-- C10: `close` on an id absent from the registry returns normally and leaves
the registry (map and counter alike) completely unchanged, and so does
`destroy` on an absent id. -/
theorem c10_close_destroy_absent_frame {id : Nat} {r : Registry}
    (h : lookupChan id r = none) :
    close id r = r ∧ destroy id r = r := by
  constructor
  · unfold close
    rw [h]
  · unfold destroy
    exact removeChan_absent h

theorem c10_close_destroy_absent_frame_witness :
    lookupChan 5 Registry.start = none ∧
    (close 5 Registry.start = Registry.start ∧ destroy 5 Registry.start = Registry.start) :=
  ⟨by decide, c10_close_destroy_absent_frame (by decide)⟩

/-- C4 counterexample: channel 0 is created with capacity 1, receives one
send of 7, and is closed with the value still buffered.  The (non-blocking)
receive that returns the last buffered value (`some 7`) does NOT remove the
registry entry: the entry survives, closed with an empty buffer, and only
the next receive would remove it.  This refutes the claim that the entry is
removed by the very receive call that drains the buffer. -/
theorem c4_counterexample :
    send 0 7 (create 1 Registry.start).2
      = some (true, Registry.mk [(0, ChannelEntry.mk [7] 1 false)] 1) ∧
    (receive 0 (close 0 (Registry.mk [(0, ChannelEntry.mk [7] 1 false)] 1))).1 = some 7 ∧
    lookupChan 0 ((receive 0 (close 0 (Registry.mk [(0, ChannelEntry.mk [7] 1 false)] 1))).2)
      = some (ChannelEntry.mk [] 1 true) := by
  decide

/-- C4 (amended): if the buffer is already empty at `close`, the entry is
removed outright; otherwise `close` retains the entry in a closed state with
its queued values, a receive on the closed entry still yields the buffered
values in order while retaining the entry, and the entry is removed by the
first receive that finds the closed buffer already drained (that receive
returns `none`), not by the receive that returns the last value. -/
theorem c4_close_retention_amended {id : Nat} {r : Registry} {e : ChannelEntry}
    (h : lookupChan id r = some e) :
    (e.buffer = [] → close id r = removeChan id r ∧ lookupChan id (close id r) = none) ∧
    (e.buffer ≠ [] → lookupChan id (close id r) = some { e with closed := true }) ∧
    (∀ v rest, e.buffer = v :: rest → e.closed = true →
      (receive id r).1 = some v ∧
      lookupChan id (receive id r).2 = some { e with buffer := rest }) ∧
    (e.buffer = [] → e.closed = true →
      (receive id r).1 = none ∧ lookupChan id (receive id r).2 = none) := by
  refine ⟨?_, ?_, ?_, ?_⟩
  · intro hb
    have hc : close id r = removeChan id r := by
      rw [close_eq_of_lookup h, hb]
      rfl
    exact ⟨hc, by rw [hc]; exact lookup_removeChan_self id r⟩
  · intro hb
    have hbe : e.buffer.isEmpty = false := by
      cases hb2 : e.buffer with
      | nil => exact absurd hb2 hb
      | cons a l => rfl
    rw [close_eq_of_lookup h, hbe]
    simp only [Bool.false_eq_true, if_false]
    rw [lookup_setChan_self, h]
    rfl
  · intro v rest hb _
    rw [receive_eq_of_lookup h, hb]
    exact ⟨rfl, by rw [lookup_setChan_self, h]; rfl⟩
  · intro hb hcl
    rw [receive_eq_of_lookup h, hb, hcl]
    exact ⟨rfl, lookup_removeChan_self id r⟩

theorem c4_close_retention_amended_witness :
    lookupChan 0 (Registry.mk [(0, ChannelEntry.mk [7] 1 true)] 1)
      = some (ChannelEntry.mk [7] 1 true) ∧
    (([7] : List Int) ≠ [] ∧
      lookupChan 0 (close 0 (Registry.mk [(0, ChannelEntry.mk [7] 1 true)] 1))
        = some (ChannelEntry.mk [7] 1 true)) ∧
    (receive 0 (Registry.mk [(0, ChannelEntry.mk [7] 1 true)] 1)).1 = some 7 ∧
    lookupChan 0 ((receive 0 (Registry.mk [(0, ChannelEntry.mk [7] 1 true)] 1)).2)
      = some (ChannelEntry.mk [] 1 true) :=
  ⟨by decide,
   ⟨by decide,
    (@c4_close_retention_amended 0 (Registry.mk [(0, ChannelEntry.mk [7] 1 true)] 1)
      (ChannelEntry.mk [7] 1 true) (by decide)).2.1 (by decide)⟩,
   (@c4_close_retention_amended 0 (Registry.mk [(0, ChannelEntry.mk [7] 1 true)] 1)
      (ChannelEntry.mk [7] 1 true) (by decide)).2.2.1 7 [] rfl rfl⟩

/-- C6: the guest-facing import `tova.chan_send(id, value)` narrows `id` as
`id as u64`, calls the registry `send`, and returns status `0` exactly when
that send succeeds; every completed failure — unknown id, closed channel, or
an unsuccessful underlying send — returns `-1`. -/
theorem c6_chan_send_status (chId value : Int) (r : Registry) :
    (lookupChan (castI32ToU64 chId) r = none → chan_send chId value r = some (-1, r)) ∧
    (∀ e, lookupChan (castI32ToU64 chId) r = some e → e.closed = true →
      chan_send chId value r = some (-1, r)) ∧
    (∀ r2, send (castI32ToU64 chId) value r = some (true, r2) →
      chan_send chId value r = some (0, r2)) ∧
    (∀ r2, send (castI32ToU64 chId) value r = some (false, r2) →
      chan_send chId value r = some (-1, r2)) ∧
    (∀ s r2, chan_send chId value r = some (s, r2) →
      (s = 0 ↔ send (castI32ToU64 chId) value r = some (true, r2))) := by
  refine ⟨?_, ?_, ?_, ?_, ?_⟩
  · intro h
    unfold chan_send
    rw [send_eq_of_absent value h]
    rfl
  · intro e h hcl
    unfold chan_send
    rw [send_eq_of_lookup value h, hcl]
    rfl
  · intro r2 h
    unfold chan_send
    rw [h]
    rfl
  · intro r2 h
    unfold chan_send
    rw [h]
    rfl
  · intro s r2 h
    unfold chan_send at h
    constructor
    · intro hs
      rw [hs] at h
      cases hsend : send (castI32ToU64 chId) value r with
      | none => rw [hsend] at h; exact absurd h (by simp)
      | some p =>
        rw [hsend] at h
        cases p with
        | mk b r3 =>
          cases b with
          | false => simp at h
          | true => simp only [Option.some.injEq, Prod.mk.injEq] at h; rw [h.2]
    · intro hsend
      rw [hsend] at h
      simp only [if_true, Option.some.injEq, Prod.mk.injEq] at h
      exact h.1.symm

theorem c6_chan_send_status_witness :
    send (castI32ToU64 0) 7 (Registry.mk [(0, ChannelEntry.mk [] 1 false)] 1)
      = some (true, Registry.mk [(0, ChannelEntry.mk [7] 1 false)] 1) ∧
    chan_send 0 7 (Registry.mk [(0, ChannelEntry.mk [] 1 false)] 1)
      = some (0, Registry.mk [(0, ChannelEntry.mk [7] 1 false)] 1) :=
  ⟨by decide,
   (c6_chan_send_status 0 7 (Registry.mk [(0, ChannelEntry.mk [] 1 false)] 1)).2.2.1
     (Registry.mk [(0, ChannelEntry.mk [7] 1 false)] 1) (by decide)⟩

/-! ## WASM execution (executor.rs, lib.rs)

The wasmtime engine is abstracted as a semantic oracle: `compile` maps guest
bytes (an abstract type `W`) to a `ModuleSem`, whose `instantiate` yields the
export table of a fresh store+instance.  Guest purity is inherent to the
model: `instantiate` and each export's `call` are functions, so every fresh
store+instance behaves alike — exactly the reuse-safety precondition the
sources document.  `Store::new` and `set_fuel` never fail (the engine is
configured with fuel enabled), so they have no error arm here; the
`exec_many_shared` embedding counts the stores its loop creates instead. -/

inductive ValType where
  | i32
  | i64
  | other
deriving DecidableEq, Repr

inductive Val where
  | i32 (v : Int)
  | i64 (v : Int)
  | other
deriving DecidableEq, Repr

/-- Rust `(v : i64) as i32`: keep the low 32 bits, read signed. -/
def wrapI32 (v : Int) : Int := (v + 2 ^ 31) % 2 ^ 32 - 2 ^ 31

/-- Argument coercion (executor.rs lines 57-65): zip the host arguments with
the declared parameter types — over the SHORTER of the two lists — mapping
`I32` to the wrapped low 32 bits and everything else to `I64` as-is. -/
def coerceArgs (args : List Int) (params : List ValType) : List Val :=
  (args.zip params).map (fun p =>
    match p.2 with
    | .i32 => .i32 (wrapI32 p.1)
    | .i64 => .i64 p.1
    | .other => .i64 p.1)

/-- Result coercion (`match results[0]`, executor.rs lines 69-73): `I64`
as-is, `I32` sign-extended (the payload already carries the signed value),
anything else `UnexpectedReturnType`. -/
def coerceResult : Val → Except String Int
  | .i64 v => .ok v
  | .i32 v => .ok v
  | .other => .error "unexpected return type"

/-- One exported guest function: declared parameter types and call behavior
(`Except.error` is a trap, fuel exhaustion included). -/
structure FuncSem where
  params : List ValType
  call : List Val → Except String Val

/-- A fresh instance's export table (`instance.get_func`). -/
structure InstanceSem where
  getFunc : String → Option FuncSem

/-- A compiled module: instantiation against the empty import set either
fails or yields the export table. -/
structure ModuleSem where
  instantiate : Except String InstanceSem

/-- The call stage shared by every invocation path: run the resolved export
on the coerced arguments (the error prefix differs per call site in the
sources), then coerce the single result slot. -/
def callStage (pre : String) (f : FuncSem) (wasmArgs : List Val) : Except String Int :=
  match f.call wasmArgs with
  | .error e => .error (pre ++ e)
  | .ok v => coerceResult v

/-- `exec_wasm_sync` (executor.rs lines 46-74): resolve the module through
the cache, fresh store, instantiate, look up the export, coerce arguments by
zipping with the declared parameters, call, coerce the result. -/
def exec_wasm_sync {W : Type} (compile : W → Except String ModuleSem)
    (wasm : W) (funcName : String) (args : List Int) : Except String Int :=
  match compile wasm with
  | .error e => .error e
  | .ok m =>
    match m.instantiate with
    | .error e => .error ("WASM instantiation error: " ++ e)
    | .ok inst =>
      match inst.getFunc funcName with
      | none => .error ("function " ++ funcName ++ " not found")
      | some f => callStage "WASM execution error: " f (coerceArgs args f.params)

/-- One iteration of the `exec_many_shared` loop (executor.rs lines 89-114):
a fresh store and a fresh instance for this task, then export lookup,
argument coercion and the call. -/
def execOneShared (m : ModuleSem) (funcName : String) (args : List Int) :
    Except String Int :=
  match m.instantiate with
  | .error e => .error ("instantiate: " ++ e)
  | .ok inst =>
    match inst.getFunc funcName with
    | none => .error ("func " ++ funcName ++ " not found")
    | some f => callStage "exec: " f (coerceArgs args f.params)

/-- `exec_many_shared` (executor.rs lines 76-117): resolve the module once;
on compile failure every task reports that error.  Otherwise the loop body
runs `Store::new`, `Instance::new` and the call for each task in turn.  The
second component counts the `Store::new` calls the loop performs — the loop
body increments it once per task. -/
def exec_many_shared {W : Type} (compile : W → Except String ModuleSem)
    (wasm : W) (tasks : List (String × List Int)) :
    List (Except String Int) × Nat :=
  match compile wasm with
  | .error e => (tasks.map (fun _ => .error e), 0)
  | .ok m =>
    tasks.foldl (fun acc t => (acc.1 ++ [execOneShared m t.1 t.2], acc.2 + 1)) ([], 0)

/-- The behavior of one task of a chunk execution, compile outcome included:
`exec_many_shared` assigns this result to every task position. -/
def sharedTaskSem {W : Type} (compile : W → Except String ModuleSem) (wasm : W)
    (t : String × List Int) : Except String Int :=
  match compile wasm with
  | .error e => .error e
  | .ok m => execOneShared m t.1 t.2

/-- A host-submitted task (lib.rs `WasmTask`): guest bytes (abstract type
`W`), export name, arguments. -/
structure WasmTask (W : Type) where
  wasm : W
  func : String
  args : List Int

/-- Await a list of per-task results in submission order, short-circuiting
on the first error (the `?` loops of lib.rs). -/
def collectResults : List (Except String Int) → Except String (List Int)
  | [] => .ok []
  | .error e :: _ => .error e
  | .ok v :: rest =>
    match collectResults rest with
    | .error e => .error e
    | .ok vs => .ok (v :: vs)

/-- `concurrent_wasm` (lib.rs lines 83-104): every task runs through
`exec_wasm_sync` with its own bytes; the results are awaited in submission
order. -/
def concurrent_wasm {W : Type} (compile : W → Except String ModuleSem)
    (tasks : List (WasmTask W)) : Except String (List Int) :=
  collectResults (tasks.map (fun t => exec_wasm_sync compile t.wasm t.func t.args))

/-- Rust `slice::chunks(n)`: consecutive chunks of `n` elements, the last one
possibly shorter.  (`chunks(0)` panics in Rust; the sources only call this
with `chunk_size.max(1)`, so the `n = 0` arm is never reached.) -/
def chunksOf {α : Type} (n : Nat) (l : List α) : List (List α) :=
  if h : l.isEmpty then []
  else if h2 : n = 0 then [l]
  else l.take n :: chunksOf n (l.drop n)
termination_by l.length
decreasing_by
  simp only [List.length_drop]
  have hl : l ≠ [] := by simpa using h
  have : 0 < l.length := List.length_pos.mpr hl
  omega

/-- `concurrent_wasm_shared` (lib.rs lines 107-144): empty input short-
circuits to an empty result; otherwise the first task's bytes are compiled
once, the (func, args) projections are split into chunks of size
`max(⌈N/8⌉, 1)`, each chunk runs through `exec_many_shared`, and the chunk
results are concatenated in order with `?` on each. -/
def concurrent_wasm_shared {W : Type} (compile : W → Except String ModuleSem)
    (tasks : List (WasmTask W)) : Except String (List Int) :=
  match tasks with
  | [] => .ok []
  | t0 :: _ =>
    let wasmBytes := t0.wasm
    let chunkSize := (tasks.length + 7) / 8
    let taskData := tasks.map (fun t => (t.func, t.args))
    let chunks := chunksOf (max chunkSize 1) taskData
    collectResults ((chunks.map (fun c => (exec_many_shared compile wasmBytes c).1)).flatten)

/-- The empty-input guard of `concurrent_wasm_first` (lib.rs lines 150-156):
the race body over a nonempty task list is abstracted as `runRace`; the
guard rejects empty input before any task is spawned. -/
def concurrent_wasm_first {W : Type} (runRace : List (WasmTask W) → Except String Int)
    (tasks : List (WasmTask W)) : Except String Int :=
  if tasks.isEmpty then .error "no tasks provided"
  else runRace tasks

/-- A concrete single-export module semantics for witnesses: the module
exports "f" with signature (i64) -> i64, returning its argument plus one. -/
def demoFunc : FuncSem :=
  ⟨[ValType.i64], fun args =>
    match args with
    | [Val.i64 v] => .ok (Val.i64 (v + 1))
    | _ => .error "bad args"⟩

def demoInstance : InstanceSem :=
  ⟨fun fn => if fn = "f" then some demoFunc else none⟩

def demoModule : ModuleSem := ⟨.ok demoInstance⟩

def demoCompile : Unit → Except String ModuleSem := fun _ => .ok demoModule

def demoCompileN : Nat → Except String ModuleSem := fun _ => .ok demoModule

/-! ## Executor lemmas -/

theorem foldl_push_count {α β : Type} (f : α → β) (l : List α) (init : List β) (k : Nat) :
    (l.foldl (fun acc t => (acc.1 ++ [f t], acc.2 + 1)) (init, k))
      = (init ++ l.map f, k + l.length) := by
  induction l generalizing init k with
  | nil => simp
  | cons a l ih =>
    simp only [List.foldl_cons, ih, List.map_cons, List.length_cons, Prod.mk.injEq]
    constructor
    · simp
    · omega

theorem exec_many_shared_results {W : Type} (compile : W → Except String ModuleSem)
    (wasm : W) (tasks : List (String × List Int)) :
    (exec_many_shared compile wasm tasks).1
      = tasks.map (sharedTaskSem compile wasm) := by
  unfold exec_many_shared sharedTaskSem
  cases hc : compile wasm with
  | error e => rfl
  | ok m =>
    show (tasks.foldl (fun acc t => (acc.1 ++ [execOneShared m t.1 t.2], acc.2 + 1))
        ([], 0)).1 = tasks.map (fun t => execOneShared m t.1 t.2)
    rw [foldl_push_count (fun t => execOneShared m t.1 t.2) tasks [] 0]
    simp

theorem exec_many_shared_storeCount {W : Type} (compile : W → Except String ModuleSem)
    (wasm : W) (tasks : List (String × List Int)) {m : ModuleSem}
    (hc : compile wasm = .ok m) :
    (exec_many_shared compile wasm tasks).2 = tasks.length := by
  unfold exec_many_shared
  rw [hc]
  show (tasks.foldl (fun acc t => (acc.1 ++ [execOneShared m t.1 t.2], acc.2 + 1))
      ([], 0)).2 = tasks.length
  rw [foldl_push_count (fun t => execOneShared m t.1 t.2) tasks [] 0]
  simp

theorem flatten_chunksOf {α : Type} (n : Nat) (hn : n ≠ 0) (l : List α) :
    (chunksOf n l).flatten = l := by
  induction l using chunksOf.induct n with
  | case1 l hl =>
    rw [List.isEmpty_iff] at hl
    subst hl
    rw [chunksOf]
    simp
  | case2 l hl hn0 => exact absurd hn0 hn
  | case3 l hl hn0 ih =>
    rw [chunksOf, dif_neg hl, dif_neg hn0]
    simp only [List.flatten_cons]
    rw [ih]
    exact List.take_append_drop n l

theorem length_le_of_mem_chunksOf {α : Type} {n : Nat} (hn : n ≠ 0) (l : List α) :
    ∀ c ∈ chunksOf n l, c.length ≤ n := by
  induction l using chunksOf.induct n with
  | case1 l hl =>
    intro c hc
    rw [chunksOf, dif_pos hl] at hc
    cases hc
  | case2 l hl hn0 => exact absurd hn0 hn
  | case3 l hl hn0 ih =>
    intro c hc
    rw [chunksOf, dif_neg hl, dif_neg hn0] at hc
    rcases List.mem_cons.mp hc with rfl | hmem
    · have := List.length_take n l
      omega
    · exact ih c hmem

theorem chunksOf_count_le {α : Type} {n : Nat} (hn : n ≠ 0) (l : List α) :
    ∀ k, l.length ≤ n * k → (chunksOf n l).length ≤ k := by
  induction l using chunksOf.induct n with
  | case1 l hl =>
    intro k hk
    rw [chunksOf, dif_pos hl]
    simp
  | case2 l hl hn0 => exact absurd hn0 hn
  | case3 l hl hn0 ih =>
    intro k hk
    rw [chunksOf, dif_neg hl, dif_neg hn0]
    cases k with
    | zero =>
      have hl2 : l ≠ [] := by simpa using hl
      have hpos := List.length_pos.mpr hl2
      simp only [Nat.mul_zero] at hk
      omega
    | succ k =>
      simp only [List.length_cons, Nat.add_le_add_iff_right]
      refine ih k ?_
      have hexp : n * (k + 1) = n * k + n := Nat.mul_succ n k
      rw [hexp] at hk
      have hd := List.length_drop n l
      omega

/-! ## Claim theorems: executor and policies -/

/-- C8: `concurrent_wasm_first` applied to an empty task list returns the
NoTasks error ("no tasks provided") without invoking any guest code — the
result is the same whatever the race body would have computed. -/
theorem c8_first_no_tasks {W : Type} :
    (∀ runRace : List (WasmTask W) → Except String Int,
      concurrent_wasm_first runRace ([] : List (WasmTask W))
        = .error "no tasks provided") ∧
    (∀ runRace1 runRace2 : List (WasmTask W) → Except String Int,
      concurrent_wasm_first runRace1 ([] : List (WasmTask W))
        = concurrent_wasm_first runRace2 ([] : List (WasmTask W))) :=
  ⟨fun _ => rfl, fun _ _ => rfl⟩

/-- C5 counterexample: a chunk of two invocations run by the chunk executor
creates two stores — `Store::new` runs once per invocation of the chunk —
refuting the claim that a chunk is executed through a single shared store
and instance reused for every invocation in the chunk. -/
theorem c5_counterexample :
    (exec_many_shared demoCompile () [("f", [1]), ("f", [2])]).2 = 2 ∧
    (exec_many_shared demoCompile () [("f", [1]), ("f", [2])]).2 ≠ 1 := by
  constructor
  · rfl
  · intro h
    rw [show (exec_many_shared demoCompile () [("f", [1]), ("f", [2])]).2 = 2 from rfl] at h
    cases h

/-- C5 (amended): for a nonempty task list, `concurrent_wasm_shared` splits
the (func, args) projections into chunks of size `max(⌈N/8⌉, 1)` — each chunk
no longer than that size, at most 8 chunks in total, and the chunks
concatenate back to the original task data in order — and hands each chunk to
one `exec_many_shared` call against the first task's bytes, which resolves
the compiled module once per chunk but creates a fresh store and instance per
invocation: a chunk run performs as many `Store::new` calls as the chunk has
tasks, not one. -/
theorem c5_chunking_amended {W : Type} (compile : W → Except String ModuleSem)
    (w : W) (m : ModuleSem) (hc : compile w = .ok m)
    (t0 : WasmTask W) (rest : List (WasmTask W)) :
    ((chunksOf (max (((t0 :: rest).length + 7) / 8) 1)
        ((t0 :: rest).map (fun t => (t.func, t.args)))).flatten
      = (t0 :: rest).map (fun t => (t.func, t.args))) ∧
    (∀ c ∈ chunksOf (max (((t0 :: rest).length + 7) / 8) 1)
        ((t0 :: rest).map (fun t => (t.func, t.args))),
      c.length ≤ max (((t0 :: rest).length + 7) / 8) 1) ∧
    ((chunksOf (max (((t0 :: rest).length + 7) / 8) 1)
        ((t0 :: rest).map (fun t => (t.func, t.args)))).length ≤ 8) ∧
    (∀ c : List (String × List Int), (exec_many_shared compile w c).2 = c.length) ∧
    (concurrent_wasm_shared compile (t0 :: rest)
      = collectResults ((chunksOf (max (((t0 :: rest).length + 7) / 8) 1)
          ((t0 :: rest).map (fun t => (t.func, t.args)))).map
            (fun c => (exec_many_shared compile t0.wasm c).1)).flatten) := by
  have hn : max (((t0 :: rest).length + 7) / 8) 1 ≠ 0 := by omega
  refine ⟨flatten_chunksOf _ hn _, length_le_of_mem_chunksOf hn _, ?_, ?_, rfl⟩
  · apply chunksOf_count_le hn
    simp only [List.length_map, List.length_cons]
    have hdm := Nat.div_add_mod (rest.length + 1 + 7) 8
    have hml : (rest.length + 1 + 7) % 8 < 8 := Nat.mod_lt _ (by omega)
    omega
  · intro c
    exact exec_many_shared_storeCount compile w c hc

theorem c5_chunking_amended_witness :
    demoCompile () = .ok demoModule ∧
    (exec_many_shared demoCompile () [("f", [1]), ("f", [2])]).2
      = ([("f", [1]), ("f", [2])] : List (String × List Int)).length :=
  ⟨rfl,
   (c5_chunking_amended demoCompile () demoModule rfl (WasmTask.mk () "f" [1])
      [WasmTask.mk () "f" [2]]).2.2.2.1 [("f", [1]), ("f", [2])]⟩

/-! ## Result collection and the ALL/CHUNKED_SHARED equivalence -/

theorem collectResults_ok_iff (l : List (Except String Int)) (vec : List Int) :
    collectResults l = .ok vec ↔ List.Forall₂ (fun x v => x = .ok v) l vec := by
  induction l generalizing vec with
  | nil =>
    constructor
    · intro h
      simp only [collectResults, Except.ok.injEq] at h
      subst h
      exact List.Forall₂.nil
    · intro h
      cases h
      rfl
  | cons x l ih =>
    cases x with
    | error e =>
      constructor
      · intro h
        simp [collectResults] at h
      · intro h
        cases h with
        | cons h1 h2 => cases h1
    | ok v =>
      constructor
      · intro h
        unfold collectResults at h
        cases hrec : collectResults l with
        | error e =>
          rw [hrec] at h
          cases h
        | ok vs =>
          rw [hrec] at h
          simp only [Except.ok.injEq] at h
          subst h
          exact List.Forall₂.cons rfl ((ih vs).mp hrec)
      · intro h
        cases h with
        | cons h1 h2 =>
          injection h1 with hv
          subst hv
          have hrec := (ih _).mpr h2
          unfold collectResults
          rw [hrec]

theorem forall2_iff_of_mem {α β : Type} {p q : α → β → Prop} {l : List α}
    (h : ∀ a ∈ l, ∀ b, p a b ↔ q a b) :
    ∀ vec, List.Forall₂ p l vec ↔ List.Forall₂ q l vec := by
  induction l with
  | nil =>
    intro vec
    constructor <;> (intro hf; cases hf; exact List.Forall₂.nil)
  | cons a l ih =>
    intro vec
    constructor
    · intro hf
      cases hf with
      | cons h1 h2 =>
        exact List.Forall₂.cons ((h a (List.mem_cons_self a l) _).mp h1)
          ((ih (fun x hx b => h x (List.mem_cons_of_mem a hx) b) _).mp h2)
    · intro hf
      cases hf with
      | cons h1 h2 =>
        exact List.Forall₂.cons ((h a (List.mem_cons_self a l) _).mpr h1)
          ((ih (fun x hx b => h x (List.mem_cons_of_mem a hx) b) _).mpr h2)

theorem exec_wasm_sync_eq {W : Type} (compile : W → Except String ModuleSem)
    (wasm : W) {m : ModuleSem} (hc : compile wasm = .ok m) (fn : String)
    (args : List Int) :
    exec_wasm_sync compile wasm fn args =
      match m.instantiate with
      | .error e => .error ("WASM instantiation error: " ++ e)
      | .ok inst =>
        match inst.getFunc fn with
        | none => .error ("function " ++ fn ++ " not found")
        | some f => callStage "WASM execution error: " f (coerceArgs args f.params) := by
  unfold exec_wasm_sync
  rw [hc]

theorem sharedTaskSem_eq {W : Type} (compile : W → Except String ModuleSem)
    (wasm : W) {m : ModuleSem} (hc : compile wasm = .ok m) (t : String × List Int) :
    sharedTaskSem compile wasm t = execOneShared m t.1 t.2 := by
  unfold sharedTaskSem
  rw [hc]

theorem exec_ok_iff_shared {W : Type} (compile : W → Except String ModuleSem)
    (wasm : W) (fn : String) (args : List Int) (v : Int) :
    exec_wasm_sync compile wasm fn args = .ok v ↔
      sharedTaskSem compile wasm (fn, args) = .ok v := by
  cases hcomp : compile wasm with
  | error e =>
    have h1 : exec_wasm_sync compile wasm fn args = .error e := by
      unfold exec_wasm_sync
      rw [hcomp]
    have h2 : sharedTaskSem compile wasm (fn, args) = .error e := by
      unfold sharedTaskSem
      rw [hcomp]
    rw [h1, h2]
  | ok m =>
    rw [exec_wasm_sync_eq compile wasm hcomp fn args,
        sharedTaskSem_eq compile wasm hcomp (fn, args)]
    show _ ↔ execOneShared m fn args = .ok v
    unfold execOneShared
    cases hi : m.instantiate with
    | error e => simp
    | ok inst =>
      show (match inst.getFunc fn with
            | none => Except.error ("function " ++ fn ++ " not found")
            | some f => callStage "WASM execution error: " f (coerceArgs args f.params))
          = Except.ok v ↔
          (match inst.getFunc fn with
            | none => Except.error ("func " ++ fn ++ " not found")
            | some f => callStage "exec: " f (coerceArgs args f.params)) = Except.ok v
      cases hf : inst.getFunc fn with
      | none => simp
      | some f =>
        show callStage "WASM execution error: " f (coerceArgs args f.params) = Except.ok v ↔
          callStage "exec: " f (coerceArgs args f.params) = Except.ok v
        unfold callStage
        cases hcall : f.call (coerceArgs args f.params) with
        | error e => simp
        | ok w => exact Iff.rfl

/-- C2: for tasks of equal signature against the same module (every task
carries the same bytes `w`; guest purity is inherent to the oracle model),
`concurrent_wasm` and `concurrent_wasm_shared` return identical ordered
result vectors: one returns `.ok vec` exactly when the other does, and that
vector is characterized elementwise — its i-th entry is the result of
invoking the i-th task. -/
theorem c2_concurrent_vs_shared {W : Type} (compile : W → Except String ModuleSem)
    (w : W) (tasks : List (WasmTask W)) (hw : ∀ t ∈ tasks, t.wasm = w) (vec : List Int) :
    (concurrent_wasm compile tasks = .ok vec ↔
      concurrent_wasm_shared compile tasks = .ok vec) ∧
    (concurrent_wasm compile tasks = .ok vec ↔
      List.Forall₂ (fun t v => exec_wasm_sync compile t.wasm t.func t.args = .ok v)
        tasks vec) := by
  have hchar : concurrent_wasm compile tasks = .ok vec ↔
      List.Forall₂ (fun t v => exec_wasm_sync compile t.wasm t.func t.args = .ok v)
        tasks vec := by
    unfold concurrent_wasm
    rw [collectResults_ok_iff]
    exact List.forall₂_map_left_iff
  have hshared : concurrent_wasm_shared compile tasks
      = collectResults (tasks.map (fun t => sharedTaskSem compile w (t.func, t.args))) := by
    cases tasks with
    | nil => rfl
    | cons t0 rest =>
      have h0 : t0.wasm = w := hw t0 (List.mem_cons_self t0 rest)
      have hn : max (((t0 :: rest).length + 7) / 8) 1 ≠ 0 := by omega
      show collectResults (((chunksOf (max (((t0 :: rest).length + 7) / 8) 1)
          ((t0 :: rest).map (fun t => (t.func, t.args)))).map
          (fun c => (exec_many_shared compile t0.wasm c).1)).flatten) = _
      rw [h0]
      simp only [exec_many_shared_results]
      rw [← List.map_flatten, flatten_chunksOf _ hn, List.map_map]
      rfl
  refine ⟨?_, hchar⟩
  rw [hchar, hshared, collectResults_ok_iff, List.forall₂_map_left_iff]
  exact (forall2_iff_of_mem (fun t ht v => by
    rw [hw t ht]
    exact exec_ok_iff_shared compile w t.func t.args v) vec)

theorem c2_concurrent_vs_shared_witness :
    (∀ t ∈ [WasmTask.mk () "f" [1], WasmTask.mk () "f" [2]], t.wasm = ()) ∧
    ((concurrent_wasm demoCompile [WasmTask.mk () "f" [1], WasmTask.mk () "f" [2]]
        = .ok [2, 3] ↔
      concurrent_wasm_shared demoCompile [WasmTask.mk () "f" [1], WasmTask.mk () "f" [2]]
        = .ok [2, 3]) ∧
     (concurrent_wasm demoCompile [WasmTask.mk () "f" [1], WasmTask.mk () "f" [2]]
        = .ok [2, 3] ↔
      List.Forall₂ (fun t v => exec_wasm_sync demoCompile t.wasm t.func t.args = .ok v)
        [WasmTask.mk () "f" [1], WasmTask.mk () "f" [2]] [2, 3])) :=
  ⟨fun t _ => rfl,
   c2_concurrent_vs_shared demoCompile () [WasmTask.mk () "f" [1], WasmTask.mk () "f" [2]]
     (fun t _ => rfl) [2, 3]⟩

/-! ## Argument/parameter pairing -/

theorem zip_take_length_left {α β : Type} : ∀ (l1 : List α) (l2 : List β),
    l1.zip l2 = (l1.take l2.length).zip l2 := by
  intro l1
  induction l1 with
  | nil => intro l2; simp
  | cons a l1 ih =>
    intro l2
    cases l2 with
    | nil => rfl
    | cons b l2 =>
      simp only [List.length_cons, List.take_succ_cons, List.zip_cons_cons]
      rw [← ih l2]

theorem zip_take_length_right {α β : Type} : ∀ (l1 : List α) (l2 : List β),
    l1.zip l2 = l1.zip (l2.take l1.length) := by
  intro l1
  induction l1 with
  | nil => intro l2; rfl
  | cons a l1 ih =>
    intro l2
    cases l2 with
    | nil => rfl
    | cons b l2 =>
      simp only [List.length_cons, List.take_succ_cons, List.zip_cons_cons]
      rw [← ih l2]

theorem coerceArgs_take_args (args : List Int) (params : List ValType) :
    coerceArgs args params = coerceArgs (args.take params.length) params := by
  unfold coerceArgs
  rw [← zip_take_length_left]

theorem coerceArgs_take_params (args : List Int) (params : List ValType) :
    coerceArgs args params = coerceArgs args (params.take args.length) := by
  unfold coerceArgs
  rw [← zip_take_length_right]

theorem coerceArgs_length (args : List Int) (params : List ValType) :
    (coerceArgs args params).length = min args.length params.length := by
  simp [coerceArgs]

/-- C3: the engine pairs host arguments with declared parameters over the
shorter of the two lists and the call still proceeds: the coerced argument
vector has length `min |args| |params|`; declared parameters beyond the
supplied arguments are dropped from the pairing; the pipeline reaches the
call stage with exactly that zipped vector (no arity check rejects the
invocation); and supplying extra host arguments leaves the invocation result
identical to the call with those arguments absent. -/
theorem c3_arg_param_zip {W : Type} (compile : W → Except String ModuleSem)
    (w : W) (fn : String) (args : List Int) (params : List ValType)
    (m : ModuleSem) (inst : InstanceSem) (f : FuncSem)
    (hc : compile w = .ok m) (hi : m.instantiate = .ok inst)
    (hf : inst.getFunc fn = some f) :
    (coerceArgs args params).length = min args.length params.length ∧
    coerceArgs args params = coerceArgs args (params.take args.length) ∧
    exec_wasm_sync compile w fn args
      = callStage "WASM execution error: " f (coerceArgs args f.params) ∧
    exec_wasm_sync compile w fn args
      = exec_wasm_sync compile w fn (args.take f.params.length) := by
  have hexec : ∀ as : List Int, exec_wasm_sync compile w fn as
      = callStage "WASM execution error: " f (coerceArgs as f.params) := by
    intro as
    rw [exec_wasm_sync_eq compile w hc fn as, hi]
    show (match inst.getFunc fn with
          | none => Except.error ("function " ++ fn ++ " not found")
          | some f => callStage "WASM execution error: " f (coerceArgs as f.params))
        = callStage "WASM execution error: " f (coerceArgs as f.params)
    rw [hf]
  refine ⟨coerceArgs_length args params, coerceArgs_take_params args params,
    hexec args, ?_⟩
  rw [hexec args, hexec (args.take f.params.length), ← coerceArgs_take_args]

theorem c3_arg_param_zip_witness :
    demoCompile () = .ok demoModule ∧
    demoModule.instantiate = .ok demoInstance ∧
    demoInstance.getFunc "f" = some demoFunc ∧
    ((coerceArgs [5, 6] [ValType.i64, ValType.i32]).length
        = min ([5, 6] : List Int).length ([ValType.i64, ValType.i32] : List ValType).length ∧
     coerceArgs [5, 6] [ValType.i64, ValType.i32]
        = coerceArgs [5, 6] (([ValType.i64, ValType.i32] : List ValType).take
            ([5, 6] : List Int).length) ∧
     exec_wasm_sync demoCompile () "f" [5, 6]
        = callStage "WASM execution error: " demoFunc (coerceArgs [5, 6] demoFunc.params) ∧
     exec_wasm_sync demoCompile () "f" [5, 6]
        = exec_wasm_sync demoCompile () "f" ([5, 6].take demoFunc.params.length)) :=
  ⟨rfl, rfl, rfl,
   c3_arg_param_zip demoCompile () "f" [5, 6] [ValType.i64, ValType.i32]
     demoModule demoInstance demoFunc rfl rfl rfl⟩

/-- C9: `concurrent_wasm_shared` runs every task against the first task's
wasm bytes; the `wasm` field of every later task is ignored — replacing the
later tasks by any tasks with the same (func, args) projections but different
bytes leaves the result unchanged, so such tasks produce the result of
running the first task's module. -/
theorem c9_shared_uses_first_wasm {W : Type} (compile : W → Except String ModuleSem)
    (t0 : WasmTask W) (rest rest' : List (WasmTask W))
    (h : rest.map (fun t => (t.func, t.args)) = rest'.map (fun t => (t.func, t.args))) :
    concurrent_wasm_shared compile (t0 :: rest)
      = concurrent_wasm_shared compile (t0 :: rest') := by
  have hlen : rest.length = rest'.length := by
    have h2 := congrArg List.length h
    simpa using h2
  show collectResults (((chunksOf (max (((t0 :: rest).length + 7) / 8) 1)
      ((t0 :: rest).map (fun t => (t.func, t.args)))).map
      (fun c => (exec_many_shared compile t0.wasm c).1)).flatten)
    = collectResults (((chunksOf (max (((t0 :: rest').length + 7) / 8) 1)
      ((t0 :: rest').map (fun t => (t.func, t.args)))).map
      (fun c => (exec_many_shared compile t0.wasm c).1)).flatten)
  rw [List.map_cons, List.map_cons, h, List.length_cons, List.length_cons, hlen]

theorem c9_shared_uses_first_wasm_witness :
    ([WasmTask.mk 1 "f" [2]].map (fun t => (t.func, t.args))
      = [WasmTask.mk 2 "f" [2]].map (fun t => (t.func, t.args))) ∧
    concurrent_wasm_shared demoCompileN [WasmTask.mk 0 "f" [1], WasmTask.mk 1 "f" [2]]
      = concurrent_wasm_shared demoCompileN [WasmTask.mk 0 "f" [1], WasmTask.mk 2 "f" [2]] :=
  ⟨rfl,
   c9_shared_uses_first_wasm demoCompileN (WasmTask.mk 0 "f" [1])
     [WasmTask.mk 1 "f" [2]] [WasmTask.mk 2 "f" [2]] rfl⟩

end Tova
